import Mathlib

/-!
Verification of a declarative, rule-based form-validation engine
(src/js/index.js): a message templater with JavaScript truthy/falsy
placeholder fallback, a factory of validation rules, a fixed field
registry, and a `validate` pass with per-field short-circuit.
-/

namespace FormValidation

/-- A JavaScript value stored in a replacement map: a string or a number. -/
inductive JsVal where
  | str (s : String)
  | num (n : Int)
deriving DecidableEq

/-- JavaScript truthiness of a replacement value ("" and 0 are falsy). -/
def JsVal.truthy : JsVal → Bool
  | .str s => !(s = "")
  | .num n => !(n = 0)

/-- String coercion applied by `String.prototype.replace` to the value
returned from the replacement callback. -/
def JsVal.toJsString : JsVal → String
  | .str s => s
  | .num n => toString n

/-- A replacement map: JavaScript property lookup modelled as a partial
function from placeholder names to values. -/
abbrev ReplMap := String → Option JsVal

/-- Word characters, as matched by the regex class `\w`. -/
def isWordChar (c : Char) : Bool := c.isAlpha || c.isDigit || c = '_'

/-- Resolution of one matched token `{name}`: the JavaScript expression
`replacements[name] || (unwrap ? name : wholeMatch)` followed by string
coercion of the result. -/
def resolve (replacements : ReplMap) (unwrap : Bool) (name : String) : String :=
  match replacements name with
  | some v =>
      if v.truthy then v.toJsString
      else if unwrap then name else "\x7b" ++ name ++ "\x7d"
  | none => if unwrap then name else "\x7b" ++ name ++ "\x7d"

/-- Single left-to-right pass of `string.replace(/{(\w+)}/g, ...)`,
as a state machine over the character list.  The state `some acc` means
we are inside a potential token opened by `{`, with `acc` holding the
word characters read so far in reverse. -/
def go (replacements : ReplMap) (unwrap : Bool) :
    Option (List Char) → List Char → List Char
  | none, [] => []
  | some acc, [] => '{' :: acc.reverse
  | none, c :: rest =>
      if c = '{' then go replacements unwrap (some []) rest
      else c :: go replacements unwrap none rest
  | some acc, c :: rest =>
      if c = '}' then
        if acc = [] then '{' :: '}' :: go replacements unwrap none rest
        else (resolve replacements unwrap (String.mk acc.reverse)).data ++
          go replacements unwrap none rest
      else if c = '{' then
        '{' :: acc.reverse ++ go replacements unwrap (some []) rest
      else if isWordChar c then
        go replacements unwrap (some (c :: acc)) rest
      else
        '{' :: acc.reverse ++ c :: go replacements unwrap none rest

/-- `replaceWithPlaceholders(string, replacements, unwrap)` from the source:
replaces each `{name}` token using `replacements`, with the truthy-lookup
fallback policy for unmatched or falsy entries. -/
def replaceWithPlaceholders (string : String) (replacements : ReplMap)
    (unwrap : Bool) : String :=
  String.mk (go replacements unwrap none string.data)

/-- The Value Lookup collaborator (`getValue`): current field values. -/
abbrev Env := String → String

/-- A validation rule: the source's validator closures return `true` (pass)
or an error-template string; modelled as `none` / `some template`.  The
environment argument is the live `getValue` collaborator that relational
rules consult at evaluation time. -/
abbrev Rule := Env → String → Option String

/-- `validations.required()`. -/
def required : Rule := fun _ value =>
  if value.length > 0 then none
  else some "The {attribute} field is required."

/-- First character class of the email regex: `[a-zA-Z+\d]`. -/
def isEmailChar1 (c : Char) : Bool := c.isAlpha || c.isDigit || c = '+'

/-- Alphanumeric character class of the email regex: `[a-zA-Z\d]`. -/
def isAlnumChar (c : Char) : Bool := c.isAlpha || c.isDigit

/-- After `@` and at least one alphanumeric: continue the alphanumeric run,
then require `.` followed by one alphanumeric character. -/
def emailAfterRun : List Char → Bool
  | [] => false
  | c :: rest =>
      if c = '.' then
        match rest with
        | d :: _ => isAlnumChar d
        | [] => false
      else isAlnumChar c && emailAfterRun rest

/-- Suffix immediately after `@` matches `[a-zA-Z\d]+\.[a-zA-Z\d]+`. -/
def emailAfterAt : List Char → Bool
  | [] => false
  | c :: rest => isAlnumChar c && emailAfterRun rest

/-- Substring test of `/[a-zA-Z+\d]+@[a-zA-Z\d]+\.[a-zA-Z\d]+/`: some
position holds a first-class character followed by `@` and a matching
suffix. -/
def emailScan : List Char → Bool
  | [] => false
  | [_] => false
  | a :: b :: rest =>
      (isEmailChar1 a && b = '@' && emailAfterAt rest) || emailScan (b :: rest)

/-- `validations.email()`. -/
def email : Rule := fun _ value =>
  if emailScan value.data then none
  else some "The {attribute} must be a valid email address."

/-- `validations.minLength(min)`. -/
def minLength (min : Int) : Rule := fun _ value =>
  if (value.length : Int) ≥ min then none
  else some (replaceWithPlaceholders
    "The {attribute} must be at least {min} characters."
    (fun n => if n = "min" then some (JsVal.num min) else none) false)

/-- `validations.maxLength(max)`. -/
def maxLength (max : Int) : Rule := fun _ value =>
  if (value.length : Int) ≤ max then none
  else some (replaceWithPlaceholders
    "The {attribute} must not be greater than {max} characters"
    (fun n => if n = "max" then some (JsVal.num max) else none) false)

/-- `validations.betweenLength(min, max)`: the source tests
`value.length <= min && value.length >= max`. -/
def betweenLength (min max : Int) : Rule := fun _ value =>
  if (value.length : Int) ≤ min ∧ (value.length : Int) ≥ max then none
  else some (replaceWithPlaceholders
    "The {attribute} must be between {min} and {max} characters."
    (fun n =>
      if n = "min" then some (JsVal.num min)
      else if n = "max" then some (JsVal.num max) else none) false)

/-- `validations.confirmation(originalAttribute)`: re-reads the referenced
field through the live environment at every evaluation. -/
def confirmation (originalAttribute : String) : Rule := fun env value =>
  if value = env originalAttribute then none
  else some "The {attribute} confirmation does not match."

/-- The `LABELS` constant: display-name overrides. -/
def LABELS : String → Option String := fun attr =>
  if attr = "confirm-password" then some "password" else none

/-- `LABELS[attr] || attr` (a falsy label falls back to the
attr itself). -/
def labelOf (attr : String) : String :=
  match LABELS attr with
  | some l => if l = "" then attr else l
  | none => attr

/-- Finalization of a failing rule's template inside `validate`:
`replaceWithPlaceholders(error, {attr: LABELS[attr] || attr}, true)`. -/
def finalizeMessage (attr error : String) : String :=
  replaceWithPlaceholders error
    (fun n => if n = "attribute" then some (JsVal.str (labelOf attr)) else none)
    true

/-- The `settings` registry: fields in insertion order with their ordered
rule lists. -/
def settings : List (String × List Rule) :=
  [("name", [required]),
   ("email", [required, email]),
   ("username", [required, betweenLength 3 16]),
   ("password", [required, minLength 3]),
   ("confirm-password", [confirmation "password"])]

/-- The inner loop of `validate` for one field: runs the rules in order;
a passing rule emits `hideError` (a display call with the empty message),
the first failing rule emits `displayError` with the finalized message and
stops the loop.  Returns the field's validity and its emitted display
calls `(attr, message)` in order. -/
def validateField (env : Env) (attr : String) :
    List Rule → Bool × List (String × String)
  | [] => (true, [])
  | rule :: rules =>
      match rule env (env attr) with
      | some error => (false, [(attr, finalizeMessage attr error)])
      | none =>
          let r := validateField env attr rules
          (r.1, (attr, "") :: r.2)

/-- The outer loop of `validate` over the registry entries: accumulates
the conjunction of field validities and the concatenated display calls. -/
def validateAll (env : Env) :
    List (String × List Rule) → Bool × List (String × String)
  | [] => (true, [])
  | (attr, rules) :: rest =>
      let f := validateField env attr rules
      let r := validateAll env rest
      (f.1 && r.1, f.2 ++ r.2)

/-- `validate()`: runs the registry against the live values; returns the
form-level validity and the sequence of display calls it emitted. -/
def validate (env : Env) : Bool × List (String × String) :=
  validateAll env settings

/-- Two consecutive `validate()` calls against unchanged field values. -/
def validateTwice (env : Env) :
    (Bool × List (String × String)) × (Bool × List (String × String)) :=
  (validate env, validate env)

/-- Display calls of one field inside a full trace. -/
def fieldTrace (attr : String) (trace : List (String × String)) :
    List (String × String) :=
  trace.filter (fun e => e.1 = attr)

/-- A replacement map with its falsy entries removed. -/
def truthyFilter (replacements : ReplMap) : ReplMap := fun n =>
  (replacements n).bind (fun v => if v.truthy then some v else none)

/-! ### Templater lemmas -/

lemma data_append (a b : String) : (a ++ b).data = a.data ++ b.data := by
  cases a; cases b; rfl

lemma mk_data (s : String) : String.mk s.data = s := rfl

lemma isWordChar_ne_braces {c : Char} (h : isWordChar c = true) :
    c ≠ '}' ∧ c ≠ '{' := by
  refine ⟨?_, ?_⟩ <;> rintro rfl <;> exact absurd h (by decide)

lemma go_none_nil (r : ReplMap) (u : Bool) : go r u none [] = [] := rfl

lemma go_cons_ne_brace (r : ReplMap) (u : Bool) {c : Char} (h : c ≠ '{')
    (l : List Char) : go r u none (c :: l) = c :: go r u none l := by
  simp [go, h]

lemma go_append_of_no_brace (r : ReplMap) (u : Bool) (l rest : List Char)
    (h : ∀ c ∈ l, c ≠ '{') :
    go r u none (l ++ rest) = l ++ go r u none rest := by
  induction l with
  | nil => simp
  | cons c l ih =>
      have hc : c ≠ '{' := h c (by simp)
      simp only [List.cons_append]
      rw [go_cons_ne_brace r u hc, ih (fun d hd => h d (by simp [hd]))]

lemma go_some_word (r : ReplMap) (u : Bool) (name : List Char) :
    ∀ (acc : List Char) (rest : List Char),
      (∀ c ∈ name, isWordChar c = true) → (acc ≠ [] ∨ name ≠ []) →
      go r u (some acc) (name ++ '}' :: rest) =
        (resolve r u (String.mk (acc.reverse ++ name))).data ++
          go r u none rest := by
  induction name with
  | nil =>
      intro acc rest _ hne
      have hacc : acc ≠ [] := hne.resolve_right (fun h => absurd rfl h)
      simp [go, hacc]
  | cons c name ih =>
      intro acc rest hw hne
      have hwc : isWordChar c = true := hw c (by simp)
      have hc := isWordChar_ne_braces hwc
      simp only [List.cons_append]
      rw [show go r u (some acc) (c :: (name ++ '}' :: rest)) =
            go r u (some (c :: acc)) (name ++ '}' :: rest) by
          simp [go, hc.1, hc.2, hwc]]
      rw [ih (c :: acc) rest (fun d hd => hw d (by simp [hd]))
            (Or.inl (by simp))]
      simp

lemma go_token (r : ReplMap) (u : Bool) (name rest : List Char)
    (hne : name ≠ []) (hw : ∀ c ∈ name, isWordChar c = true) :
    go r u none ('{' :: (name ++ '}' :: rest)) =
      (resolve r u (String.mk name)).data ++ go r u none rest := by
  rw [show go r u none ('{' :: (name ++ '}' :: rest)) =
        go r u (some []) (name ++ '}' :: rest) by simp [go]]
  rw [go_some_word r u name [] rest hw (Or.inr hne)]
  simp

lemma render_token (r : ReplMap) (u : Bool) (name : String) (hne : name ≠ "")
    (hw : ∀ c ∈ name.data, isWordChar c = true) :
    replaceWithPlaceholders ("\x7b" ++ name ++ "\x7d") r u = resolve r u name := by
  have hd : ("\x7b" ++ name ++ "\x7d").data = '{' :: (name.data ++ '}' :: []) := by
    cases name; rfl
  have hnd : name.data ≠ [] := by
    intro h
    apply hne
    cases name with
    | mk l => simpa using congrArg String.mk h
  unfold replaceWithPlaceholders
  rw [hd, go_token r u name.data [] hnd hw, go_none_nil]
  simp [mk_data]

lemma resolve_truthyFilter (r : ReplMap) (u : Bool) (n : String) :
    resolve r u n = resolve (truthyFilter r) u n := by
  unfold resolve truthyFilter
  cases h : r n with
  | none => simp [h]
  | some v =>
      by_cases hv : v.truthy <;> simp [h, hv]

lemma go_truthyFilter (r : ReplMap) (u : Bool) (l : List Char) :
    ∀ st : Option (List Char), go r u st l = go (truthyFilter r) u st l := by
  induction l with
  | nil => intro st; cases st <;> rfl
  | cons c l ih =>
      intro st
      cases st with
      | none =>
          by_cases hc : c = '{' <;> simp [go, hc, ih]
      | some acc =>
          by_cases h1 : c = '}'
          · subst h1
            by_cases h2 : acc = []
            · simp [go, h2, ih]
            · have e1 : go r u (some acc) ('}' :: l) =
                  (resolve r u (String.mk acc.reverse)).data ++
                    go r u none l := by
                simp [go, h2]
              have e2 : go (truthyFilter r) u (some acc) ('}' :: l) =
                  (resolve (truthyFilter r) u (String.mk acc.reverse)).data ++
                    go (truthyFilter r) u none l := by
                simp [go, h2]
              rw [e1, e2, ← ih none, ← resolve_truthyFilter]
          · by_cases h2 : c = '{'
            · simp [go, h1, h2, ih]
            · by_cases h3 : isWordChar c <;> simp [go, h1, h2, h3, ih]

lemma render_truthyFilter (s : String) (r : ReplMap) (u : Bool) :
    replaceWithPlaceholders s r u =
      replaceWithPlaceholders s (truthyFilter r) u := by
  unfold replaceWithPlaceholders
  rw [go_truthyFilter]

/-! ### Engine lemmas -/

lemma validateField_fst_iff (env : Env) (a : String) (rs : List Rule) :
    (validateField env a rs).1 = true ↔ ∀ r ∈ rs, r env (env a) = none := by
  induction rs with
  | nil => simp [validateField]
  | cons rule rs ih =>
      cases h : rule env (env a) with
      | some m => simp [validateField, h]
      | none => simp [validateField, h, ih]

lemma validateField_all_pass (env : Env) (a : String) (rs : List Rule)
    (h : ∀ r ∈ rs, r env (env a) = none) :
    validateField env a rs = (true, rs.map fun _ => (a, "")) := by
  induction rs with
  | nil => rfl
  | cons rule rs ih =>
      have h0 : rule env (env a) = none := h rule (by simp)
      simp [validateField, h0, ih (fun r hr => h r (by simp [hr]))]

lemma validateField_first_fail (env : Env) (a : String) (pre : List Rule)
    (rule : Rule) (post : List Rule) (m : String)
    (hpre : ∀ r ∈ pre, r env (env a) = none)
    (hm : rule env (env a) = some m) :
    validateField env a (pre ++ rule :: post) =
      (false, (pre.map fun _ => (a, "")) ++ [(a, finalizeMessage a m)]) := by
  induction pre with
  | nil => simp [validateField, hm]
  | cons r0 pre ih =>
      have h0 : r0 env (env a) = none := hpre r0 (by simp)
      simp [validateField, h0, ih (fun r hr => hpre r (by simp [hr]))]

lemma validateField_keys (env : Env) (a : String) (rs : List Rule) :
    ∀ e ∈ (validateField env a rs).2, e.1 = a := by
  induction rs with
  | nil => simp [validateField]
  | cons rule rs ih =>
      cases h : rule env (env a) with
      | some m => simp [validateField, h]
      | none =>
          intro e he
          simp only [validateField, h] at he
          rcases List.mem_cons.mp he with he | he
          · simp [he]
          · exact ih e he

lemma validateAll_fst (env : Env) (S : List (String × List Rule)) :
    (validateAll env S).1 = true ↔
      ∀ p ∈ S, (validateField env p.1 p.2).1 = true := by
  induction S with
  | nil => simp [validateAll]
  | cons p S ih =>
      cases p with
      | mk a rs => simp [validateAll, ih, Bool.and_eq_true]

lemma validateAll_keys (env : Env) (S : List (String × List Rule)) :
    ∀ e ∈ (validateAll env S).2, e.1 ∈ S.map Prod.fst := by
  induction S with
  | nil => simp [validateAll]
  | cons p S ih =>
      cases p with
      | mk a rs =>
          intro e he
          simp only [validateAll, List.mem_append] at he
          rcases he with he | he
          · simp [validateField_keys env a rs e he]
          · simp [ih e he]

lemma fieldTrace_append (a : String) (t1 t2 : List (String × String)) :
    fieldTrace a (t1 ++ t2) = fieldTrace a t1 ++ fieldTrace a t2 := by
  simp [fieldTrace]

lemma fieldTrace_all_keys (a : String) (t : List (String × String))
    (h : ∀ e ∈ t, e.1 = a) : fieldTrace a t = t := by
  unfold fieldTrace
  rw [List.filter_eq_self]
  intro e he
  simp [h e he]

lemma fieldTrace_no_keys (a : String) (t : List (String × String))
    (h : ∀ e ∈ t, e.1 ≠ a) : fieldTrace a t = [] := by
  unfold fieldTrace
  rw [List.filter_eq_nil_iff]
  intro e he
  simp [h e he]

lemma fieldTrace_validateAll (env : Env) (S : List (String × List Rule))
    (hnd : (S.map Prod.fst).Nodup) (a : String) (rs : List Rule)
    (hmem : (a, rs) ∈ S) :
    fieldTrace a (validateAll env S).2 = (validateField env a rs).2 := by
  induction S with
  | nil => simp at hmem
  | cons p S ih =>
      cases p with
      | mk b rsb =>
          have hnd' : (S.map Prod.fst).Nodup :=
            (List.nodup_cons.mp (by simpa using hnd)).2
          have hbnotin : b ∉ S.map Prod.fst :=
            (List.nodup_cons.mp (by simpa using hnd)).1
          rcases List.mem_cons.mp hmem with heq | htail
          · obtain ⟨rfl, rfl⟩ := Prod.mk.injEq .. ▸ And.intro
              (congrArg Prod.fst heq) (congrArg Prod.snd heq)
            have h1 : fieldTrace a (validateField env a rs).2 =
                (validateField env a rs).2 :=
              fieldTrace_all_keys _ _ (validateField_keys env a rs)
            have h2 : fieldTrace a (validateAll env S).2 = [] := by
              refine fieldTrace_no_keys _ _ (fun e he hea => ?_)
              exact hbnotin (hea ▸ validateAll_keys env S e he)
            simp [validateAll, fieldTrace_append, h1, h2]
          · have hamem : a ∈ S.map Prod.fst :=
              List.mem_map.mpr ⟨(a, rs), htail, rfl⟩
            have hne : b ≠ a := fun h => hbnotin (h ▸ hamem)
            have h1 : fieldTrace a (validateField env b rsb).2 = [] := by
              refine fieldTrace_no_keys _ _ (fun e he => ?_)
              rw [validateField_keys env b rsb e he]
              exact hne
            simp [validateAll, fieldTrace_append, h1, ih hnd' htail]

lemma go_of_no_brace (r : ReplMap) (u : Bool) (l : List Char)
    (h : ∀ c ∈ l, c ≠ '{') : go r u none l = l := by
  have := go_append_of_no_brace r u l [] h
  simpa [go_none_nil] using this

lemma data_mk (l : List Char) : (String.mk l).data = l := rfl

lemma string_eq_of_data {s t : String} (h : s.data = t.data) : s = t := by
  cases s with
  | mk l =>
      cases t with
      | mk m => exact congrArg String.mk h

/-! ### Claims -/

/-- C5: a replacement value that is falsy (absent, the empty string, or
zero) is treated as not found: rendering with a map equals rendering with
the map's falsy entries removed, so the unmatched-token policy applies to
such tokens; in particular `render("{x}", {x: 0}, false) = "{x}"`. -/
theorem render_falsy_c5 :
    (∀ (s : String) (r : ReplMap) (u : Bool),
        replaceWithPlaceholders s r u =
          replaceWithPlaceholders s (truthyFilter r) u) ∧
      replaceWithPlaceholders "{x}"
        (fun n => if n = "x" then some (JsVal.num 0) else none) false =
        "{x}" := by
  exact ⟨render_truthyFilter, rfl⟩

/-- C6: the round-trip: rendering the minLength template with `{min: 3}`
and unwrap false substitutes `3` and leaves `{attribute}` braced; rendering
that result with `{attribute: "password"}` and unwrap true yields the final
message; in general an unmatched token is left unchanged when unwrap is
false and replaced by the bare identifier when it is true. -/
theorem render_roundTrip_c6 :
    replaceWithPlaceholders
        "The {attribute} must be at least {min} characters."
        (fun n => if n = "min" then some (JsVal.num 3) else none) false =
      "The {attribute} must be at least 3 characters." ∧
    replaceWithPlaceholders "The {attribute} must be at least 3 characters."
        (fun n => if n = "attribute" then some (JsVal.str "password") else none)
        true =
      "The password must be at least 3 characters." ∧
    ∀ (r : ReplMap) (name : String), name ≠ "" →
      (∀ c ∈ name.data, isWordChar c = true) → r name = none →
      replaceWithPlaceholders ("\x7b" ++ name ++ "\x7d") r false =
          "\x7b" ++ name ++ "\x7d" ∧
        replaceWithPlaceholders ("\x7b" ++ name ++ "\x7d") r true = name := by
  refine ⟨rfl, rfl, fun r name hne hw hnone => ⟨?_, ?_⟩⟩
  · rw [render_token r false name hne hw]
    simp [resolve, hnone]
  · rw [render_token r true name hne hw]
    simp [resolve, hnone]

/-- C6 witness: the unmatched-token policy at the concrete token `{y}`. -/
theorem render_roundTrip_c6_witness :
    replaceWithPlaceholders "{y}" (fun _ => none) false = "{y}" ∧
      replaceWithPlaceholders "{y}" (fun _ => none) true = "y" := by
  have h := render_roundTrip_c6.2.2 (fun _ => none) "y" (by decide)
    (by decide) rfl
  exact ⟨h.1, h.2⟩

/-- C10: the falsy fallback also applies when unwrap is true: a token whose
map value is falsy is replaced by the bare identifier, not the value. -/
theorem render_unwrap_falsy_c10 (r : ReplMap) (name : String) (v : JsVal)
    (hne : name ≠ "") (hw : ∀ c ∈ name.data, isWordChar c = true)
    (hv : r name = some v) (hf : v.truthy = false) :
    replaceWithPlaceholders ("\x7b" ++ name ++ "\x7d") r true = name := by
  rw [render_token r true name hne hw]
  simp [resolve, hv, hf]

/-- C10 witness: `render("{x}", {x: ""}, true) = "x"`. -/
theorem render_unwrap_falsy_c10_witness :
    replaceWithPlaceholders "{x}"
        (fun n => if n = "x" then some (JsVal.str "") else none) true =
      "x" := by
  have h := render_unwrap_falsy_c10
    (fun n => if n = "x" then some (JsVal.str "") else none) "x"
    (JsVal.str "") (by decide) (by decide) rfl rfl
  exact h

/-- C7: confirmation(a) returns Valid exactly when the value equals the
value the live environment returns for `a` at evaluation time: the
referenced field is re-read through the environment on every evaluation,
for every environment. -/
theorem confirmation_c7 (originalAttribute : String) (env : Env)
    (value : String) :
    confirmation originalAttribute env value = none ↔
      value = env originalAttribute := by
  unfold confirmation
  by_cases h : value = env originalAttribute <;> simp [h]

/-- C9: with unchanged field values, two consecutive validate() calls
return the same boolean and emit the same display calls in the same
order (the engine holds no mutable state between passes). -/
theorem validate_c9 (env : Env) :
    (validateTwice env).1.1 = (validateTwice env).2.1 ∧
      (validateTwice env).1.2 = (validateTwice env).2.2 :=
  ⟨rfl, rfl⟩

/-- C4: once a rule of a field fails, the pass's outcome is independent of
every later rule of that rule set; the message displayed is the first
failing rule's finalized message; concretely, `[required, minLength(5)]`
on an empty input displays only the required message. -/
theorem shortCircuit_c4 :
    (∀ (env : Env) (a : String) (pre : List Rule) (rule : Rule)
        (post post' : List Rule) (m : String),
        (∀ r ∈ pre, r env (env a) = none) → rule env (env a) = some m →
        validateField env a (pre ++ rule :: post) =
          validateField env a (pre ++ rule :: post')) ∧
    (∀ (env : Env) (a : String) (pre : List Rule) (rule : Rule)
        (post : List Rule) (m : String),
        (∀ r ∈ pre, r env (env a) = none) → rule env (env a) = some m →
        (validateField env a (pre ++ rule :: post)).2 =
          (pre.map fun _ => (a, "")) ++ [(a, finalizeMessage a m)]) ∧
    validateField (fun _ => "") "f" [required, minLength 5] =
      (false, [("f", "The f field is required.")]) := by
  refine ⟨?_, ?_, rfl⟩
  · intro env a pre rule post post' m hpre hm
    rw [validateField_first_fail env a pre rule post m hpre hm,
      validateField_first_fail env a pre rule post' m hpre hm]
  · intro env a pre rule post m hpre hm
    rw [validateField_first_fail env a pre rule post m hpre hm]

/-- C4 witness: with value "x", required passes and minLength(5) fails, so
the result does not depend on the rules after minLength(5). -/
theorem shortCircuit_c4_witness :
    validateField (fun _ => "x") "f" ([required] ++ minLength 5 :: [email]) =
      validateField (fun _ => "x") "f" ([required] ++ minLength 5 :: []) := by
  exact shortCircuit_c4.1 (fun _ => "x") "f" [required] (minLength 5)
    [email] [] "The {attribute} must be at least 5 characters."
    (by
      intro r hr
      rw [List.mem_singleton] at hr
      subst hr
      rfl)
    rfl

/-- C8: minLength(min) passes exactly when the length is at least min, and
a failure carries the template with `{min}` substituted by the literal
parameter (`{attribute}` is left braced for later finalization); the
substitution always happens on failure, since a failure forces min ≥ 1. -/
theorem minLength_c8 (min : Int) (env : Env) (value : String) :
    (minLength min env value = none ↔ min ≤ (value.length : Int)) ∧
      ((value.length : Int) < min →
        minLength min env value =
          some ("The {attribute} must be at least " ++ toString min ++
            " characters.")) := by
  constructor
  · unfold minLength
    by_cases h : (value.length : Int) ≥ min <;> simp [h]
  · intro hlt
    have hge : ¬ ((value.length : Int) ≥ min) := by omega
    have hne0 : min ≠ 0 := by
      have : (0 : Int) ≤ (value.length : Int) := Int.ofNat_nonneg _
      omega
    have htruthy : (JsVal.num min).truthy = true := by
      simp [JsVal.truthy, hne0]
    unfold minLength
    rw [if_neg hge]
    congr 1
    unfold replaceWithPlaceholders
    rw [show ("The {attribute} must be at least {min} characters." :
          String).data =
        "The ".data ++ ('{' :: ("attribute".data ++ '}' ::
          (" must be at least ".data ++ ('{' :: ("min".data ++ '}' ::
            " characters.".data))))) from rfl]
    rw [go_append_of_no_brace _ _ _ _ (by decide)]
    rw [go_token _ _ _ _ (by decide) (by decide)]
    rw [go_append_of_no_brace _ _ _ _ (by decide)]
    rw [go_token _ _ _ _ (by decide) (by decide)]
    rw [go_of_no_brace _ _ _ (by decide)]
    rw [show resolve
          (fun n => if n = "min" then some (JsVal.num min) else none) false
          (String.mk "attribute".data) = "{attribute}" from rfl]
    rw [show resolve
          (fun n => if n = "min" then some (JsVal.num min) else none) false
          (String.mk "min".data) = (JsVal.num min).toJsString by
        simp [resolve, htruthy]]
    refine string_eq_of_data ?_
    rw [data_mk, data_append, data_append]
    rw [show ("The {attribute} must be at least " : String).data =
        "The ".data ++ ("{attribute}".data ++ " must be at least ".data)
        from rfl]
    simp [JsVal.toJsString, List.append_assoc]

/-- C8 witness: minLength(3) on "ab" fails with the substituted message. -/
theorem minLength_c8_witness :
    minLength 3 (fun _ => "") "ab" =
      some "The {attribute} must be at least 3 characters." := by
  have h := (minLength_c8 3 (fun _ => "") "ab").2 (by decide)
  exact h.trans (by decide)

/-- C2 counterexample: betweenLength(0, 0) fails on "a", but because 0 is
falsy its tokens are left unsubstituted, contradicting the claim that a
failure always carries `{min}` and `{max}` substituted. -/
theorem betweenLength_c2_counterexample :
    betweenLength 0 0 (fun _ => "") "a" =
        some "The {attribute} must be between {min} and {max} characters." ∧
      "The {attribute} must be between {min} and {max} characters." ≠
        "The {attribute} must be between 0 and 0 characters." := by
  exact ⟨rfl, by decide⟩

/-- C2 (amended): betweenLength(min, max) passes exactly when
length ≤ min AND length ≥ max, the conjunction as the spec states it; a
failure yields the template with `{min}` and `{max}` substituted provided
both parameters are nonzero — a zero parameter is falsy, so its token is
left unsubstituted by the templater's fallback policy. -/
theorem betweenLength_c2 (min max : Int) (env : Env) (value : String) :
    (betweenLength min max env value = none ↔
        ((value.length : Int) ≤ min ∧ (value.length : Int) ≥ max)) ∧
      (betweenLength min max env value ≠ none → min ≠ 0 → max ≠ 0 →
        betweenLength min max env value =
          some ("The {attribute} must be between " ++ toString min ++
            " and " ++ toString max ++ " characters.")) := by
  constructor
  · unfold betweenLength
    by_cases h : (value.length : Int) ≤ min ∧ (value.length : Int) ≥ max <;>
      simp [h]
  · intro hfail hmin0 hmax0
    have hc : ¬ ((value.length : Int) ≤ min ∧ (value.length : Int) ≥ max) := by
      intro hc
      exact hfail (by unfold betweenLength; rw [if_pos hc])
    have htmin : (JsVal.num min).truthy = true := by
      simp [JsVal.truthy, hmin0]
    have htmax : (JsVal.num max).truthy = true := by
      simp [JsVal.truthy, hmax0]
    unfold betweenLength
    rw [if_neg hc]
    congr 1
    unfold replaceWithPlaceholders
    rw [show ("The {attribute} must be between {min} and {max} characters." :
          String).data =
        "The ".data ++ ('{' :: ("attribute".data ++ '}' ::
          (" must be between ".data ++ ('{' :: ("min".data ++ '}' ::
            (" and ".data ++ ('{' :: ("max".data ++ '}' ::
              " characters.".data)))))))) from rfl]
    rw [go_append_of_no_brace _ _ _ _ (by decide)]
    rw [go_token _ _ _ _ (by decide) (by decide)]
    rw [go_append_of_no_brace _ _ _ _ (by decide)]
    rw [go_token _ _ _ _ (by decide) (by decide)]
    rw [go_append_of_no_brace _ _ _ _ (by decide)]
    rw [go_token _ _ _ _ (by decide) (by decide)]
    rw [go_of_no_brace _ _ _ (by decide)]
    rw [show resolve
          (fun n => if n = "min" then some (JsVal.num min)
            else if n = "max" then some (JsVal.num max) else none) false
          (String.mk "attribute".data) = "{attribute}" from rfl]
    rw [show resolve
          (fun n => if n = "min" then some (JsVal.num min)
            else if n = "max" then some (JsVal.num max) else none) false
          (String.mk "min".data) = (JsVal.num min).toJsString by
        simp [resolve, htmin]]
    rw [show resolve
          (fun n => if n = "min" then some (JsVal.num min)
            else if n = "max" then some (JsVal.num max) else none) false
          (String.mk "max".data) = (JsVal.num max).toJsString by
        simp [resolve, htmax]]
    refine string_eq_of_data ?_
    rw [data_mk, data_append, data_append, data_append, data_append]
    rw [show ("The {attribute} must be between " : String).data =
        "The ".data ++ ("{attribute}".data ++ " must be between ".data)
        from rfl]
    simp [JsVal.toJsString, List.append_assoc]

/-- C2 witness: betweenLength(3, 16) on "abcd" fails (4 ≤ 3 is false) with
both parameters substituted. -/
theorem betweenLength_c2_witness :
    betweenLength 3 16 (fun _ => "") "abcd" =
      some "The {attribute} must be between 3 and 16 characters." := by
  have h := (betweenLength_c2 3 16 (fun _ => "") "abcd").2 (by decide)
    (by decide) (by decide)
  exact h.trans (by decide)

/-- C1: validate() is true exactly when every rule of every field passes on
that field's current value; any failing rule forces false; a failing
field's display calls are empty-message hides for its passing prefix
followed by exactly one call carrying the first failing rule's finalized
message; an all-passing field's calls all carry the empty message. -/
theorem validate_c1 (S : List (String × List Rule)) (env : Env)
    (hnd : (S.map Prod.fst).Nodup) :
    ((validateAll env S).1 = true ↔
        ∀ p ∈ S, ∀ r ∈ p.2, r env (env p.1) = none) ∧
      ∀ a rs, (a, rs) ∈ S →
        ((∀ r ∈ rs, r env (env a) = none) →
          ∀ e ∈ fieldTrace a (validateAll env S).2, e.2 = "") ∧
        (∀ (pre : List Rule) (rule : Rule) (post : List Rule) (m : String),
          rs = pre ++ rule :: post →
          (∀ r ∈ pre, r env (env a) = none) →
          rule env (env a) = some m →
          (validateAll env S).1 = false ∧
            fieldTrace a (validateAll env S).2 =
              (pre.map fun _ => (a, "")) ++ [(a, finalizeMessage a m)]) := by
  constructor
  · rw [validateAll_fst]
    constructor
    · intro h p hp
      exact (validateField_fst_iff env p.1 p.2).mp (h p hp)
    · intro h p hp
      exact (validateField_fst_iff env p.1 p.2).mpr (h p hp)
  · intro a rs hmem
    have htr := fieldTrace_validateAll env S hnd a rs hmem
    constructor
    · intro hall e he
      rw [htr, validateField_all_pass env a rs hall] at he
      simp only [List.mem_map] at he
      obtain ⟨r, _, hre⟩ := he
      rw [← hre]
    · intro pre rule post m hdecomp hpre hm
      subst hdecomp
      have hf := validateField_first_fail env a pre rule post m hpre hm
      constructor
      · cases hval : (validateAll env S).1 with
        | false => rfl
        | true =>
            have h := (validateAll_fst env S).mp hval
              (a, pre ++ rule :: post) hmem
            rw [hf] at h
            simp at h
      · rw [htr, hf]

/-- C1 witness: a one-field registry whose rule passes everywhere makes
validate() return true. -/
theorem validate_c1_witness :
    (validateAll (fun _ => "Ann") [("name", [required])]).1 = true := by
  have h := (validate_c1 [("name", [required])] (fun _ => "Ann")
    (by simp)).1
  refine h.mpr ?_
  intro p hp r hr
  rw [List.mem_singleton] at hp
  subst hp
  rw [List.mem_singleton] at hr
  subst hr
  rfl

/-- C3: with the concrete registry, validate() returns false for every
assignment of field values: no string length satisfies betweenLength(3, 16)
because the conjunction length ≤ 3 AND length ≥ 16 is unsatisfiable, and an
empty username already fails required. -/
theorem validate_c3 (env : Env) : (validate env).1 = false := by
  unfold validate
  cases hval : (validateAll env settings).1 with
  | false => rfl
  | true =>
      have h := (validateAll_fst env settings).mp hval
        ("username", [required, betweenLength 3 16]) (by simp [settings])
      rw [validateField_fst_iff] at h
      have hb := h (betweenLength 3 16) (by simp)
      unfold betweenLength at hb
      by_cases hc : ((env "username").length : Int) ≤ 3 ∧
          ((env "username").length : Int) ≥ 16
      · exact absurd hc (by omega)
      · rw [if_neg hc] at hb
        simp at hb

end FormValidation
